import Mathlib

/-!
# go-pcap command line capture session (`cmd/main.go`)

A shallow embedding of `processPacket` and of the `Run` function of `rootCmd`.

* Printing is modelled by the list of `fmt.Printf` calls made, one constructor of `Out`
  per format string, carrying the arguments of the call.
* A run-time panic is modelled explicitly (`Panic`), together with the output already
  written when it happens.
* The capture engine and the decoding library are outside `cmd/main.go`; what they hand to
  the program (the result of `OpenLive`, of `SetBPFFilter`, the frames read, the layers a
  decoder finds in a byte buffer) is the `World` a session runs in.
-/

namespace GoPcap

/-! ## Data model -/

/-- A byte of a frame. -/
abbrev Byte := Nat

/-- The layer types of `gopacket` that the program names, and all the others by number. -/
inductive LayerType where
  | Ethernet
  | IPv4
  | UDP
  | TCP
  | VXLAN
  | Payload
  | DecodeFailure
  | other (id : Nat)
  deriving DecidableEq, Repr

/-- The fields of `layers.IPv4` that the program reads. -/
structure IPv4 where
  SrcIP : List Byte
  DstIP : List Byte
  deriving DecidableEq, Repr

/-- The fields of `layers.UDP` that the program reads. -/
structure UDP where
  SrcPort : Nat
  DstPort : Nat
  deriving DecidableEq, Repr

/-- The fields of `layers.TCP` that the program reads. -/
structure TCP where
  SrcPort : Nat
  DstPort : Nat
  deriving DecidableEq, Repr

/-- A value of the interface `gopacket.Layer`, by its dynamic type: a (non-nil) `*layers.IPv4`,
`*layers.UDP`, `*layers.TCP`, or a value of any other type, which answers `LayerType()`
with `t`. -/
inductive Layer where
  | ipv4 (ip : IPv4)
  | udp (u : UDP)
  | tcp (t : TCP)
  | other (t : LayerType)
  deriving DecidableEq, Repr

/-- The method `LayerType()` of a layer. -/
def Layer.layerType : Layer → LayerType
  | .ipv4 _ => LayerType.IPv4
  | .udp _ => LayerType.UDP
  | .tcp _ => LayerType.TCP
  | .other t => t

/-- The layer is typed as the decoders of `gopacket` type it: a layer that reports the type
IPv4, UDP or TCP is a `*layers.IPv4`, `*layers.UDP` or `*layers.TCP`. -/
def Layer.typed : Layer → Bool
  | .other t => t != LayerType.IPv4 && t != LayerType.UDP && t != LayerType.TCP
  | _ => true

/-- The lengths of `gopacket.CaptureInfo`, which `gopacket.PacketMetadata` embeds. -/
structure CaptureInfo where
  CaptureLength : Int
  Length : Int
  deriving DecidableEq, Repr

/-- A value of the interface `gopacket.Packet`: its layers in decode order, its bytes and
its metadata. -/
structure Packet where
  layers : List Layer
  data : List Byte
  metadata : CaptureInfo
  deriving DecidableEq, Repr

/-- The method `Layer(t)` of a packet: the first layer of type `t`, nil (`none`) when there
is none. -/
def Packet.Layer (packet : Packet) (t : LayerType) : Option Layer :=
  packet.layers.find? (fun l => l.layerType == t)

/-- Every layer of the packet is typed as the decoders of `gopacket` type it. -/
def Packet.typed (packet : Packet) : Bool :=
  packet.layers.all Layer.typed

/-! ## Output and failure -/

/-- One `fmt.Printf` call of `processPacket`, by its format string. -/
inductive Out where
  /-- The call with format `"%d: IP packet "`. -/
  | ipHead (count : Int)
  /-- The call with format `"From src %d to dst %d\n"`. -/
  | ipAddrs (src dst : List Byte)
  /-- The call with format `"%d: UDP packet "`. -/
  | udpHead (count : Int)
  /-- The call with format `"%d: TCP packet "`. -/
  | tcpHead (count : Int)
  /-- The call with format `"From src port %d to dst port %d\n"` (both transport sections). -/
  | ports (src dst : Nat)
  /-- The call with format `"%d: PACKET LAYER %d: %s\n"`. -/
  | layer (count : Int) (i : Nat) (t : LayerType)
  /-- The call with format `"%d: packet size %d, first bytes %d\n"`. -/
  | size (count : Int) (captureLength : Int) (data : List Byte)
  deriving DecidableEq, Repr

/-- The run-time panics of Go that `processPacket` could raise. -/
inductive Panic where
  | nilDereference
  | sliceOutOfRange
  deriving DecidableEq, Repr

/-- The effect of a piece of code: what it printed, and the panic that stopped it, if any. -/
structure Exec where
  out : List Out
  err : Option Panic
  deriving DecidableEq, Repr

/-- Sequencing: `b` runs after `a` unless `a` panicked. -/
def Exec.seq (a b : Exec) : Exec :=
  match a.err with
  | some _ => a
  | none => ⟨a.out ++ b.out, b.err⟩

/-- The assertion `ip, _ := ipLayer.(*layers.IPv4)`: nil when the dynamic type differs. -/
def Layer.assertIPv4 : Layer → Option IPv4
  | .ipv4 ip => some ip
  | _ => none

/-- The assertion `udp, _ := udpLayer.(*layers.UDP)`: nil when the dynamic type differs. -/
def Layer.assertUDP : Layer → Option UDP
  | .udp u => some u
  | _ => none

/-- The assertion `tcp, _ := tcpLayer.(*layers.TCP)`: nil when the dynamic type differs. -/
def Layer.assertTCP : Layer → Option TCP
  | .tcp t => some t
  | _ => none

/-- The slice expression `data[:n]`, which panics when `n` exceeds the slice. -/
def sliceTo (data : List Byte) (n : Nat) : Option (List Byte) :=
  if n ≤ data.length then some (data.take n) else none

/-! ## `processPacket` -/

/-- Lines 83-88: the IPv4 section. -/
def ipSection (packet : Packet) (count : Int) : Exec :=
  match packet.Layer LayerType.IPv4 with
  | none => ⟨[], none⟩
  | some ipLayer =>
    match ipLayer.assertIPv4 with
    | some ip => ⟨[Out.ipHead count, Out.ipAddrs ip.SrcIP ip.DstIP], none⟩
    | none => ⟨[Out.ipHead count], some Panic.nilDereference⟩

/-- Lines 89-94: the UDP section. -/
def udpSection (packet : Packet) (count : Int) : Exec :=
  match packet.Layer LayerType.UDP with
  | none => ⟨[], none⟩
  | some udpLayer =>
    match udpLayer.assertUDP with
    | some udp => ⟨[Out.udpHead count, Out.ports udp.SrcPort udp.DstPort], none⟩
    | none => ⟨[Out.udpHead count], some Panic.nilDereference⟩

/-- Lines 95-100: the TCP section. -/
def tcpSection (packet : Packet) (count : Int) : Exec :=
  match packet.Layer LayerType.TCP with
  | none => ⟨[], none⟩
  | some tcpLayer =>
    match tcpLayer.assertTCP with
    | some tcp => ⟨[Out.tcpHead count, Out.ports tcp.SrcPort tcp.DstPort], none⟩
    | none => ⟨[Out.tcpHead count], some Panic.nilDereference⟩

/-- Lines 101-104: one line per layer, with its index. -/
def layerListing (packet : Packet) (count : Int) : Exec :=
  ⟨packet.layers.enum.map (fun il => Out.layer count il.1 il.2.layerType), none⟩

/-- Lines 106-110: the size and the first bytes. -/
def sizeLine (packet : Packet) (count : Int) : Exec :=
  let data := packet.data
  if data.length > 50 then
    match sliceTo data 50 with
    | some data => ⟨[Out.size count packet.metadata.CaptureLength data], none⟩
    | none => ⟨[], some Panic.sliceOutOfRange⟩
  else
    ⟨[Out.size count packet.metadata.CaptureLength data], none⟩

/-- The function `processPacket(packet, count)`. -/
def processPacket (packet : Packet) (count : Int) : Exec :=
  (ipSection packet count).seq <|
  (udpSection packet count).seq <|
  (tcpSection packet count).seq <|
  (layerListing packet count).seq <|
  sizeLine packet count

/-! ## The session -/

/-- The flag variables of the command and its trailing arguments. -/
structure Flags where
  useGopacket : Bool
  useSyscalls : Bool
  debug : Bool
  iface : String
  timeout : Int
  args : List String

/-- Modelled from the spec: the type `pcap.Handle`, of which the program reads
`Handle.LinkType() -> LinkTypeEnum`. -/
structure Handle where
  linkType : Nat
  deriving DecidableEq, Repr

/-- Modelled from the spec: the type `pcap.Packet` of the values that `Handle.Listen()`
delivers, a RawFrame: the bytes `B` and what the capture engine recorded for them. -/
structure Frame where
  B : List Byte
  Info : CaptureInfo
  deriving DecidableEq, Repr

/-- The first-layer decoder handed to `gopacket`: a link type (`layers.LinkType(...)`) or a
layer type (`layers.LayerTypeEthernet`). -/
inductive Decoder where
  | linkType (n : Nat)
  | layerType (t : LayerType)
  deriving DecidableEq, Repr

/-- What the capture engine, the decoding library, the scheduler and the platform contribute
to one session. -/
structure World where
  /-- The result of `pcap.OpenLive(iface, snaplen, promiscuous, timeout, syscalls)`. -/
  openLive : String → Nat → Bool → Int → Bool → Except String Handle
  /-- The error of `handle.SetBPFFilter(filter)`, `none` for nil. -/
  setBPFFilter : Handle → String → Option String
  /-- The frames the handle delivers, in order, until it is closed or exhausted. -/
  frames : List Frame
  /-- The layers the decoders of `gopacket` find in a byte buffer, from a first decoder on. -/
  decode : Decoder → List Byte → List Layer
  /-- The decoders of `gopacket` build layers of the concrete type of their layer type. -/
  decode_typed : ∀ d b, ∀ l ∈ decode d b, l.typed = true
  /-- Whether the sleep of the timeout watcher ends while the process still runs. -/
  watcherRuns : Bool
  /-- The width of the Go type `int` on the platform. -/
  intBits : Nat

/-- The call `gopacket.NewPacket(data, first, gopacket.Default)`: the packet holds the bytes
and the layers decoded from them; nothing fills in its metadata, which keeps the zero value. -/
def NewPacket (w : World) (data : List Byte) (first : Decoder) : Packet :=
  { layers := w.decode first data, data := data, metadata := ⟨0, 0⟩ }

/-- A packet of `gopacket.NewPacketSource(handle, decoder).Packets()`: `NextPacket` reads a
frame, builds the packet with `NewPacket` and stores the capture info of the frame in the
metadata. -/
def PacketSource.packet (w : World) (decoder : Decoder) (f : Frame) : Packet :=
  { NewPacket w f.B decoder with metadata := f.Info }

/-- What a session does, in program order. -/
inductive Event where
  /-- The call `log.SetLevel(log.DebugLevel)`. -/
  | setLevelDebug
  /-- The call `fmt.Printf("capturing from interface %s\n", iface)`. -/
  | printCapturing (iface : String)
  /-- The call `pcap.OpenLive(...)`. -/
  | openLive (iface : String) (snaplen : Nat) (promisc : Bool) (timeout : Int) (syscalls : Bool)
  /-- The calls `log.Fatal` and `log.Fatalf`, which end the process. -/
  | fatal (msg : String)
  /-- The call `handle.SetBPFFilter(filter)`. -/
  | setBPFFilter (filter : String)
  /-- The `go` statement that starts the timeout watcher. -/
  | goWatcher (seconds : Int)
  /-- The call `gopacket.NewPacketSource(handle, layers.LinkType(handle.LinkType()))`. -/
  | newPacketSource (linkType : Nat)
  /-- The call `handle.Listen()`. -/
  | listen
  /-- A call `processPacket(packet, count)`. -/
  | call (packet : Packet) (count : Int)
  /-- A `fmt.Printf` call of `processPacket`. -/
  | print (o : Out)
  /-- A panic, which ends the process. -/
  | panic (p : Panic)
  /-- The call `time.Sleep(time.Duration(timeout) * time.Second)`. -/
  | sleep (seconds : Int)
  /-- The call `handle.Close()`. -/
  | close
  deriving DecidableEq, Repr

/-- The statement `count++` on an `int` of `bits` bits, which wraps around. -/
def increment (bits : Nat) (count : Int) : Int :=
  if count + 1 = 2 ^ (bits - 1) then -(2 ^ (bits - 1)) else count + 1

/-- The body shared by the two `for packet := range ...` loops: `processPacket(packet, count)`
then `count++`, for each packet of the channel; a panic ends the process. -/
def readLoop (bits : Nat) : List Packet → Int → List Event
  | [], _ => []
  | packet :: rest, count =>
    Event.call packet count :: ((processPacket packet count).out.map Event.print ++
      match (processPacket packet count).err with
      | some p => [Event.panic p]
      | none => readLoop bits rest (increment bits count))

/-- Lines 59-70: the read loop of the chosen acquisition mode. -/
def acquire (fl : Flags) (w : World) (handle : Handle) : List Event :=
  if fl.useGopacket then
    Event.newPacketSource handle.linkType ::
      readLoop w.intBits
        (w.frames.map (PacketSource.packet w (Decoder.linkType handle.linkType))) 0
  else
    Event.listen ::
      readLoop w.intBits
        (w.frames.map (fun f => NewPacket w f.B (Decoder.layerType LayerType.Ethernet))) 0

/-- Lines 53-58: the timeout watcher is started when the timeout is positive. -/
def armWatcher (fl : Flags) : List Event :=
  if fl.timeout > 0 then [Event.goWatcher fl.timeout] else []

/-- The body of the watcher goroutine, as far as it gets before the process ends. -/
def watcherBody (fl : Flags) (w : World) : List Event :=
  if fl.timeout > 0 then
    Event.sleep fl.timeout :: (if w.watcherRuns then [Event.close] else [])
  else []

/-- The two threads of control of a session. -/
structure Session where
  main : List Event
  watcher : List Event

/-- Lines 39-41: the filter expression. -/
def filterOf (args : List String) : String :=
  if args.length ≥ 1 then " ".intercalate args else ""

/-- Lines 42-47: up to and including the call of `OpenLive`. -/
def opening (fl : Flags) : List Event :=
  (if fl.debug then [Event.setLevelDebug] else []) ++
    [Event.printCapturing fl.iface, Event.openLive fl.iface 1600 true 0 fl.useSyscalls]

/-- The function `Run` of `rootCmd`. -/
def Run (fl : Flags) (w : World) : Session :=
  match w.openLive fl.iface 1600 true 0 fl.useSyscalls with
  | .error err => ⟨opening fl ++ [Event.fatal err], []⟩
  | .ok handle =>
    match w.setBPFFilter handle (filterOf fl.args) with
    | some err =>
      ⟨opening fl ++ [Event.setBPFFilter (filterOf fl.args),
        Event.fatal ("unexpected error setting filter: " ++ err)], []⟩
    | none =>
      ⟨opening fl ++ [Event.setBPFFilter (filterOf fl.args)] ++ armWatcher fl ++
        acquire fl w handle, watcherBody fl w⟩

/-- A VXLAN frame as `gopacket` decodes it: a TCP segment inside an Ethernet frame carried
over UDP port 4789. -/
def tunnelled : Packet :=
  { layers := [Layer.other LayerType.Ethernet, Layer.ipv4 ⟨[10, 0, 0, 1], [10, 0, 0, 2]⟩,
      Layer.udp ⟨49152, 4789⟩, Layer.other LayerType.VXLAN, Layer.other LayerType.Ethernet,
      Layer.ipv4 ⟨[192, 168, 0, 1], [192, 168, 0, 2]⟩, Layer.tcp ⟨40000, 80⟩],
    data := [],
    metadata := ⟨0, 0⟩ }

/-- A packet with a layer that reports the type IPv4 and is not a `*layers.IPv4`. -/
def mistyped : Packet :=
  { layers := [Layer.other LayerType.IPv4], data := [], metadata := ⟨0, 0⟩ }

/-- A world for the examples: the interface opens with link type 1 (Ethernet), the filter
attaches, two frames arrive, of 60 and of 3 bytes, and the Ethernet decoder finds a UDP
datagram over IPv4 in every frame. -/
def sampleWorld : World :=
  { openLive := fun _ _ _ _ _ => Except.ok ⟨1⟩,
    setBPFFilter := fun _ _ => none,
    frames := [⟨List.replicate 60 0, ⟨60, 60⟩⟩, ⟨[1, 2, 3], ⟨3, 3⟩⟩],
    decode := fun d _ =>
      match d with
      | Decoder.layerType LayerType.Ethernet =>
        [Layer.other LayerType.Ethernet, Layer.ipv4 ⟨[10, 0, 0, 1], [10, 0, 0, 2]⟩,
          Layer.udp ⟨5353, 5353⟩]
      | Decoder.linkType 1 =>
        [Layer.other LayerType.Ethernet, Layer.ipv4 ⟨[10, 0, 0, 1], [10, 0, 0, 2]⟩,
          Layer.udp ⟨5353, 5353⟩]
      | _ => [Layer.other LayerType.DecodeFailure],
    decode_typed := by
      intro d b l hl
      dsimp only at hl
      split at hl <;> simp at hl <;> rcases hl with rfl | rfl | rfl <;> rfl,
    watcherRuns := true,
    intBits := 64 }

/-- A packet without IPv4 layer, with a layer that reports the type UDP and is not a
`*layers.UDP`. -/
def mistypedUDP : Packet :=
  { layers := [Layer.other LayerType.UDP], data := [1, 2, 3], metadata := ⟨3, 3⟩ }

/-- A packet of two layers, the second of which reports the type TCP and is not a
`*layers.TCP`. -/
def mistypedTCP : Packet :=
  { layers := [Layer.other LayerType.Ethernet, Layer.other LayerType.TCP], data := [1, 2, 3],
    metadata := ⟨3, 3⟩ }

/-- The example world on a platform with an `int` of 32 bits, delivering 2^31 + 1 frames. -/
def world32 : World :=
  { sampleWorld with
    frames := List.replicate 2147483649 ⟨[1, 2, 3], ⟨3, 3⟩⟩,
    intBits := 32 }

/-- A world in which the interface cannot be opened. -/
def closedWorld : World :=
  { sampleWorld with openLive := fun _ _ _ _ _ => Except.error "permission denied" }

/-- A world in which the filter expression is rejected. -/
def unfilteredWorld : World :=
  { sampleWorld with setBPFFilter := fun _ _ => some "invalid filter" }

/-- The flags of a session in raw mode with a timeout of five seconds. -/
def rawFlags : Flags :=
  { useGopacket := false, useSyscalls := false, debug := false, iface := "eth0",
    timeout := 5, args := ["udp", "port", "5353"] }

/-- The flags of a session in mediated mode without timeout. -/
def mediatedFlags : Flags :=
  { useGopacket := true, useSyscalls := false, debug := false, iface := "eth0",
    timeout := 0, args := [] }

/-! ## Observations -/

/-- The calls of `processPacket` in a trace, in order. -/
def calls : List Event → List (Packet × Int)
  | [] => []
  | Event.call p c :: rest => (p, c) :: calls rest
  | _ :: rest => calls rest

/-- The payload previews reported in an output. -/
def previews : List Out → List (List Byte)
  | [] => []
  | Out.size _ _ d :: rest => d :: previews rest
  | _ :: rest => previews rest

/-- The packet sizes reported in an output. -/
def sizes : List Out → List Int
  | [] => []
  | Out.size _ n _ :: rest => n :: sizes rest
  | _ :: rest => sizes rest

/-- The lines of the layer listing in an output, as pairs of index and type. -/
def listing : List Out → List (Nat × LayerType)
  | [] => []
  | Out.layer _ i t :: rest => (i, t) :: listing rest
  | _ :: rest => listing rest

/-- What a trace printed through `processPacket`. -/
def printed : List Event → List Out
  | [] => []
  | Event.print o :: rest => o :: printed rest
  | _ :: rest => printed rest

/-- The line belongs to the IPv4 section. -/
def Out.isIP : Out → Bool
  | .ipHead _ => true
  | .ipAddrs _ _ => true
  | _ => false

/-- The packet that the read loop of the chosen mode hands to `processPacket` for a frame. -/
def packetOf (fl : Flags) (w : World) (handle : Handle) (f : Frame) : Packet :=
  if fl.useGopacket then PacketSource.packet w (Decoder.linkType handle.linkType) f
  else NewPacket w f.B (Decoder.layerType LayerType.Ethernet)

/-- The event opens a source of frames: `NewPacketSource` or `Listen`. -/
def Event.isSource : Event → Bool
  | .newPacketSource _ => true
  | .listen => true
  | _ => false

/-- The event belongs to the acquisition of frames. -/
def Event.isAcquisition : Event → Bool
  | .newPacketSource _ => true
  | .listen => true
  | .call _ _ => true
  | .print _ => true
  | _ => false

/-- The event is one of the body of a read loop. -/
def Event.isLoop : Event → Bool
  | .call _ _ => true
  | .print _ => true
  | .panic _ => true
  | _ => false

/-- The event is a call of `SetBPFFilter`. -/
def Event.isSetFilter : Event → Bool
  | .setBPFFilter _ => true
  | _ => false

/-! ## Lemmas on `processPacket` -/

theorem Exec.seq_of_ok (a b : Exec) (h : a.err = none) : a.seq b = ⟨a.out ++ b.out, b.err⟩ := by
  simp [Exec.seq, h]

theorem mem_of_Layer {p : Packet} {t : LayerType} {l : Layer} (h : p.Layer t = some l) :
    l ∈ p.layers ∧ l.layerType = t := by
  unfold Packet.Layer at h
  exact ⟨List.mem_of_find?_eq_some h, by simpa using List.find?_some h⟩

theorem Layer_isSome_iff (p : Packet) (t : LayerType) :
    (p.Layer t).isSome = true ↔ ∃ l ∈ p.layers, l.layerType = t := by
  simp [Packet.Layer, List.find?_isSome]

theorem typed_of_mem {p : Packet} (hp : p.typed = true) {l : Layer} (hl : l ∈ p.layers) :
    l.typed = true := by
  unfold Packet.typed at hp
  exact (List.all_eq_true.mp hp) l hl

theorem Layer.ipv4_of_typed {l : Layer} (ht : l.typed = true)
    (h : l.layerType = LayerType.IPv4) : ∃ ip, l = Layer.ipv4 ip := by
  cases l with
  | ipv4 ip => exact ⟨ip, rfl⟩
  | udp u => simp [Layer.layerType] at h
  | tcp t => simp [Layer.layerType] at h
  | other t => simp [Layer.layerType] at h; subst h; simp [Layer.typed] at ht

theorem Layer.udp_of_typed {l : Layer} (ht : l.typed = true)
    (h : l.layerType = LayerType.UDP) : ∃ u, l = Layer.udp u := by
  cases l with
  | ipv4 ip => simp [Layer.layerType] at h
  | udp u => exact ⟨u, rfl⟩
  | tcp t => simp [Layer.layerType] at h
  | other t => simp [Layer.layerType] at h; subst h; simp [Layer.typed] at ht

theorem Layer.tcp_of_typed {l : Layer} (ht : l.typed = true)
    (h : l.layerType = LayerType.TCP) : ∃ t, l = Layer.tcp t := by
  cases l with
  | ipv4 ip => simp [Layer.layerType] at h
  | udp u => simp [Layer.layerType] at h
  | tcp t => exact ⟨t, rfl⟩
  | other t => simp [Layer.layerType] at h; subst h; simp [Layer.typed] at ht

/-- The IPv4 section of a packet typed as `gopacket` types it. -/
theorem ipSection_typed {p : Packet} (hp : p.typed = true) (count : Int) :
    ipSection p count =
      match p.Layer LayerType.IPv4 with
      | some (Layer.ipv4 ip) => ⟨[Out.ipHead count, Out.ipAddrs ip.SrcIP ip.DstIP], none⟩
      | _ => ⟨[], none⟩ := by
  unfold ipSection
  cases h : p.Layer LayerType.IPv4 with
  | none => rfl
  | some l =>
    obtain ⟨hl, ht⟩ := mem_of_Layer h
    obtain ⟨ip, rfl⟩ := Layer.ipv4_of_typed (typed_of_mem hp hl) ht
    rfl

/-- The UDP section of a packet typed as `gopacket` types it. -/
theorem udpSection_typed {p : Packet} (hp : p.typed = true) (count : Int) :
    udpSection p count =
      match p.Layer LayerType.UDP with
      | some (Layer.udp u) => ⟨[Out.udpHead count, Out.ports u.SrcPort u.DstPort], none⟩
      | _ => ⟨[], none⟩ := by
  unfold udpSection
  cases h : p.Layer LayerType.UDP with
  | none => rfl
  | some l =>
    obtain ⟨hl, ht⟩ := mem_of_Layer h
    obtain ⟨u, rfl⟩ := Layer.udp_of_typed (typed_of_mem hp hl) ht
    rfl

/-- The TCP section of a packet typed as `gopacket` types it. -/
theorem tcpSection_typed {p : Packet} (hp : p.typed = true) (count : Int) :
    tcpSection p count =
      match p.Layer LayerType.TCP with
      | some (Layer.tcp t) => ⟨[Out.tcpHead count, Out.ports t.SrcPort t.DstPort], none⟩
      | _ => ⟨[], none⟩ := by
  unfold tcpSection
  cases h : p.Layer LayerType.TCP with
  | none => rfl
  | some l =>
    obtain ⟨hl, ht⟩ := mem_of_Layer h
    obtain ⟨t, rfl⟩ := Layer.tcp_of_typed (typed_of_mem hp hl) ht
    rfl

theorem ipSection_err {p : Packet} (hp : p.typed = true) (count : Int) :
    (ipSection p count).err = none := by
  rw [ipSection_typed hp]; split <;> rfl

theorem udpSection_err {p : Packet} (hp : p.typed = true) (count : Int) :
    (udpSection p count).err = none := by
  rw [udpSection_typed hp]; split <;> rfl

theorem tcpSection_err {p : Packet} (hp : p.typed = true) (count : Int) :
    (tcpSection p count).err = none := by
  rw [tcpSection_typed hp]; split <;> rfl

/-- The slice `data[:50]` is only taken when it is in range. -/
theorem sizeLine_eq (p : Packet) (count : Int) :
    sizeLine p count = ⟨[Out.size count p.metadata.CaptureLength (p.data.take 50)], none⟩ := by
  unfold sizeLine sliceTo
  by_cases h : p.data.length > 50
  · have h50 : 50 ≤ p.data.length := by omega
    simp [h, h50]
  · have h50 : p.data.length ≤ 50 := by omega
    simp [h, List.take_of_length_le h50]

/-- The whole output of `processPacket` on a packet typed as `gopacket` types it. -/
theorem processPacket_typed {p : Packet} (hp : p.typed = true) (count : Int) :
    processPacket p count =
      ⟨(ipSection p count).out ++ ((udpSection p count).out ++ ((tcpSection p count).out ++
        ((layerListing p count).out ++
          [Out.size count p.metadata.CaptureLength (p.data.take 50)]))), none⟩ := by
  unfold processPacket
  rw [Exec.seq_of_ok _ _ (ipSection_err hp count), Exec.seq_of_ok _ _ (udpSection_err hp count),
    Exec.seq_of_ok _ _ (tcpSection_err hp count), Exec.seq_of_ok _ _ rfl, sizeLine_eq]

theorem previews_append (a b : List Out) : previews (a ++ b) = previews a ++ previews b := by
  induction a with
  | nil => rfl
  | cons o a ih => cases o <;> simp [previews, ih]

theorem sizes_append (a b : List Out) : sizes (a ++ b) = sizes a ++ sizes b := by
  induction a with
  | nil => rfl
  | cons o a ih => cases o <;> simp [sizes, ih]

theorem listing_append (a b : List Out) : listing (a ++ b) = listing a ++ listing b := by
  induction a with
  | nil => rfl
  | cons o a ih => cases o <;> simp [listing, ih]

theorem ipSection_cases {p : Packet} (hp : p.typed = true) (count : Int) :
    (p.Layer LayerType.IPv4 = none ∧ ipSection p count = ⟨[], none⟩) ∨
    ∃ ip, p.Layer LayerType.IPv4 = some (Layer.ipv4 ip) ∧
      ipSection p count = ⟨[Out.ipHead count, Out.ipAddrs ip.SrcIP ip.DstIP], none⟩ := by
  cases h : p.Layer LayerType.IPv4 with
  | none => left; exact ⟨rfl, by rw [ipSection_typed hp, h]⟩
  | some l =>
    obtain ⟨hl, ht⟩ := mem_of_Layer h
    obtain ⟨ip, rfl⟩ := Layer.ipv4_of_typed (typed_of_mem hp hl) ht
    right; exact ⟨ip, rfl, by rw [ipSection_typed hp, h]⟩

theorem udpSection_cases {p : Packet} (hp : p.typed = true) (count : Int) :
    (p.Layer LayerType.UDP = none ∧ udpSection p count = ⟨[], none⟩) ∨
    ∃ u, p.Layer LayerType.UDP = some (Layer.udp u) ∧
      udpSection p count = ⟨[Out.udpHead count, Out.ports u.SrcPort u.DstPort], none⟩ := by
  cases h : p.Layer LayerType.UDP with
  | none => left; exact ⟨rfl, by rw [udpSection_typed hp, h]⟩
  | some l =>
    obtain ⟨hl, ht⟩ := mem_of_Layer h
    obtain ⟨u, rfl⟩ := Layer.udp_of_typed (typed_of_mem hp hl) ht
    right; exact ⟨u, rfl, by rw [udpSection_typed hp, h]⟩

theorem tcpSection_cases {p : Packet} (hp : p.typed = true) (count : Int) :
    (p.Layer LayerType.TCP = none ∧ tcpSection p count = ⟨[], none⟩) ∨
    ∃ t, p.Layer LayerType.TCP = some (Layer.tcp t) ∧
      tcpSection p count = ⟨[Out.tcpHead count, Out.ports t.SrcPort t.DstPort], none⟩ := by
  cases h : p.Layer LayerType.TCP with
  | none => left; exact ⟨rfl, by rw [tcpSection_typed hp, h]⟩
  | some l =>
    obtain ⟨hl, ht⟩ := mem_of_Layer h
    obtain ⟨t, rfl⟩ := Layer.tcp_of_typed (typed_of_mem hp hl) ht
    right; exact ⟨t, rfl, by rw [tcpSection_typed hp, h]⟩

theorem previews_layerLines (count : Int) (ls : List (Nat × Layer)) :
    previews (ls.map (fun il => Out.layer count il.1 il.2.layerType)) = [] := by
  induction ls with
  | nil => rfl
  | cons il ls ih => simpa [previews] using ih

theorem listing_layerLines (count : Int) (ls : List (Nat × Layer)) :
    listing (ls.map (fun il => Out.layer count il.1 il.2.layerType)) =
      ls.map (fun il => (il.1, il.2.layerType)) := by
  induction ls with
  | nil => rfl
  | cons il ls ih => simpa [listing] using ih

theorem isIP_layerLines (count : Int) (ls : List (Nat × Layer)) :
    ∀ o ∈ ls.map (fun il => Out.layer count il.1 il.2.layerType), o.isIP = false := by
  intro o ho
  obtain ⟨il, _, rfl⟩ := List.mem_map.mp ho
  rfl

theorem isIP_udpSection {p : Packet} (hp : p.typed = true) (count : Int) :
    ∀ o ∈ (udpSection p count).out, o.isIP = false := by
  rcases udpSection_cases hp count with ⟨_, h⟩ | ⟨u, _, h⟩ <;> simp [h, Out.isIP]

theorem isIP_tcpSection {p : Packet} (hp : p.typed = true) (count : Int) :
    ∀ o ∈ (tcpSection p count).out, o.isIP = false := by
  rcases tcpSection_cases hp count with ⟨_, h⟩ | ⟨t, _, h⟩ <;> simp [h, Out.isIP]

/-- What follows the IPv4 section has no line of that section. -/
theorem isIP_rest {p : Packet} (hp : p.typed = true) (count : Int) :
    ∀ o ∈ (udpSection p count).out ++ ((tcpSection p count).out ++
      ((layerListing p count).out ++
        [Out.size count p.metadata.CaptureLength (p.data.take 50)])), o.isIP = false := by
  intro o ho
  simp only [List.mem_append, List.mem_singleton] at ho
  rcases ho with h | h | h | h
  · exact isIP_udpSection hp count o h
  · exact isIP_tcpSection hp count o h
  · exact isIP_layerLines count _ o h
  · subst h; rfl

theorem Layer_eq_none_iff (p : Packet) (t : LayerType) :
    p.Layer t = none ↔ ¬ ∃ l ∈ p.layers, l.layerType = t := by
  rw [← Layer_isSome_iff]
  cases p.Layer t <;> simp

/-! ## The claims on `processPacket` -/

/-- C1: for a decoded packet whose data has length L, `processPacket` reports one payload
preview; it has length min(L, 50), it is the whole data when L ≤ 50 and the first 50 bytes of
the data, in order, when L > 50. -/
theorem processPacket_preview (p : Packet) (hp : p.typed = true) (count : Int) :
    previews (processPacket p count).out = [p.data.take 50] ∧
    (p.data.take 50).length = min p.data.length 50 ∧
    (p.data.length ≤ 50 → p.data.take 50 = p.data) ∧
    (p.data.length > 50 → ∀ i, i < 50 → (p.data.take 50)[i]? = p.data[i]?) := by
  refine ⟨?_, ?_, ?_, ?_⟩
  · rw [processPacket_typed hp]
    simp only [previews_append, layerListing, previews_layerLines]
    rcases ipSection_cases hp count with ⟨_, h1⟩ | ⟨ip, _, h1⟩ <;>
    rcases udpSection_cases hp count with ⟨_, h2⟩ | ⟨u, _, h2⟩ <;>
    rcases tcpSection_cases hp count with ⟨_, h3⟩ | ⟨t, _, h3⟩ <;>
    simp [h1, h2, h3, previews]
  · rw [List.length_take, Nat.min_comm]
  · exact List.take_of_length_le
  · intro _ i hi
    simp [List.getElem?_take, hi]

/-- C1, at a packet of 60 bytes with an Ethernet layer only. -/
theorem processPacket_preview_witness :
    previews (processPacket ⟨[Layer.other LayerType.Ethernet], List.range 60, ⟨60, 60⟩⟩ 0).out
      = [List.range 50] :=
  (processPacket_preview ⟨[Layer.other LayerType.Ethernet], List.range 60, ⟨60, 60⟩⟩
    (by decide) 0).1.trans (by decide)

/-- C7, amended: for a packet with k layers that is typed as the decoders of `gopacket` type
it, the layer listing has k entries, in decode order, and the j-th entry pairs the index j
with the type of the j-th layer. -/
theorem processPacket_listing (p : Packet) (hp : p.typed = true) (count : Int) :
    (listing (processPacket p count).out).length = p.layers.length ∧
    ∀ j : Nat, (listing (processPacket p count).out)[j]? =
      (p.layers[j]?).map (fun (l : Layer) => (j, l.layerType)) := by
  have h : listing (processPacket p count).out =
      p.layers.enum.map (fun il => (il.1, il.2.layerType)) := by
    rw [processPacket_typed hp]
    simp only [listing_append, layerListing, listing_layerLines]
    rcases ipSection_cases hp count with ⟨_, h1⟩ | ⟨ip, _, h1⟩ <;>
    rcases udpSection_cases hp count with ⟨_, h2⟩ | ⟨u, _, h2⟩ <;>
    rcases tcpSection_cases hp count with ⟨_, h3⟩ | ⟨t, _, h3⟩ <;>
    simp [h1, h2, h3, listing]
  rw [h]
  refine ⟨by simp, fun j => ?_⟩
  rw [List.getElem?_map, List.getElem?_enum]
  cases p.layers[j]? <;> rfl

/-- C7 amended, at an Ethernet, IPv4, UDP packet. -/
theorem processPacket_listing_witness :
    (listing (processPacket ⟨[Layer.other LayerType.Ethernet, Layer.ipv4 ⟨[10, 0, 0, 1],
      [10, 0, 0, 2]⟩, Layer.udp ⟨5353, 5353⟩], [], ⟨0, 0⟩⟩ 7).out).length = 3 :=
  (processPacket_listing ⟨[Layer.other LayerType.Ethernet, Layer.ipv4 ⟨[10, 0, 0, 1],
      [10, 0, 0, 2]⟩, Layer.udp ⟨5353, 5353⟩], [], ⟨0, 0⟩⟩ (by decide) 7).1

/-- C3, amended: the summary of a packet typed as the decoders of `gopacket` type it has an
IPv4 section if and only if the packet has an IPv4 layer; the section is the head line and
the source and destination addresses of the first such layer, and it opens the summary;
with or without it, the rest of the summary is produced: the remaining sections, the
listing and the size line. -/
theorem processPacket_ipv4_section (p : Packet) (hp : p.typed = true) (count : Int) :
    ((∃ o ∈ (processPacket p count).out, o.isIP = true) ↔
      ∃ l ∈ p.layers, l.layerType = LayerType.IPv4) ∧
    (∀ l, p.Layer LayerType.IPv4 = some l → ∃ ip, l = Layer.ipv4 ip ∧
      (processPacket p count).out.filter Out.isIP =
        [Out.ipHead count, Out.ipAddrs ip.SrcIP ip.DstIP]) ∧
    ((¬ ∃ l ∈ p.layers, l.layerType = LayerType.IPv4) →
      processPacket p count =
        ⟨(udpSection p count).out ++ ((tcpSection p count).out ++
          ((layerListing p count).out ++
            [Out.size count p.metadata.CaptureLength (p.data.take 50)])), none⟩) ∧
    (∀ l, p.Layer LayerType.IPv4 = some l → ∃ ip, l = Layer.ipv4 ip ∧
      processPacket p count =
        ⟨[Out.ipHead count, Out.ipAddrs ip.SrcIP ip.DstIP] ++
          ((udpSection p count).out ++ ((tcpSection p count).out ++
            ((layerListing p count).out ++
              [Out.size count p.metadata.CaptureLength (p.data.take 50)]))), none⟩) := by
  have hrest := isIP_rest hp count
  have hfilter : ((udpSection p count).out ++ ((tcpSection p count).out ++
      ((layerListing p count).out ++
        [Out.size count p.metadata.CaptureLength (p.data.take 50)]))).filter Out.isIP = [] :=
    List.filter_eq_nil_iff.mpr (fun o ho => by simp [hrest o ho])
  rw [processPacket_typed hp]
  rcases ipSection_cases hp count with ⟨hnone, h1⟩ | ⟨ip, hsome, h1⟩
  · have hno := (Layer_eq_none_iff p LayerType.IPv4).mp hnone
    refine ⟨⟨?_, fun h => absurd h hno⟩, ?_, ?_, ?_⟩
    · rintro ⟨o, ho, hip⟩
      rw [h1] at ho
      simp [hrest o (by simpa using ho)] at hip
    · intro l hl
      rw [hnone] at hl
      cases hl
    · intro _
      rw [h1]
      rfl
    · intro l hl
      rw [hnone] at hl
      cases hl
  · have hyes := (Layer_isSome_iff p LayerType.IPv4).mp (by rw [hsome]; rfl)
    refine ⟨⟨fun _ => hyes, fun _ => ⟨Out.ipHead count, ?_, rfl⟩⟩, ?_,
      fun h => absurd hyes h, ?_⟩
    · rw [h1]
      simp
    · intro l hl
      rw [hsome] at hl
      cases hl
      refine ⟨ip, rfl, ?_⟩
      rw [h1]
      simp only [List.filter_append, hfilter]
      simp [Out.isIP]
    · intro l hl
      rw [hsome] at hl
      cases hl
      refine ⟨ip, rfl, ?_⟩
      rw [h1]

/-- C3 amended, at an Ethernet, IPv4, UDP packet. -/
theorem processPacket_ipv4_section_witness :
    ∃ o ∈ (processPacket ⟨[Layer.other LayerType.Ethernet, Layer.ipv4 ⟨[10, 0, 0, 1],
      [10, 0, 0, 2]⟩, Layer.udp ⟨5353, 5353⟩], [], ⟨0, 0⟩⟩ 7).out, o.isIP = true :=
  (processPacket_ipv4_section ⟨[Layer.other LayerType.Ethernet, Layer.ipv4 ⟨[10, 0, 0, 1],
      [10, 0, 0, 2]⟩, Layer.udp ⟨5353, 5353⟩], [], ⟨0, 0⟩⟩ (by decide) 7).1.mpr
    ⟨Layer.ipv4 ⟨[10, 0, 0, 1], [10, 0, 0, 2]⟩, by decide, rfl⟩

theorem mem_udpHead_iff {p : Packet} (hp : p.typed = true) (count : Int) :
    Out.udpHead count ∈ (processPacket p count).out ↔ (p.Layer LayerType.UDP).isSome = true := by
  rw [processPacket_typed hp]
  rcases ipSection_cases hp count with ⟨_, h1⟩ | ⟨ip, _, h1⟩ <;>
  rcases udpSection_cases hp count with ⟨e2, h2⟩ | ⟨u, e2, h2⟩ <;>
  rcases tcpSection_cases hp count with ⟨_, h3⟩ | ⟨t, _, h3⟩ <;>
  simp [h1, h2, h3, e2, layerListing]

theorem mem_tcpHead_iff {p : Packet} (hp : p.typed = true) (count : Int) :
    Out.tcpHead count ∈ (processPacket p count).out ↔ (p.Layer LayerType.TCP).isSome = true := by
  rw [processPacket_typed hp]
  rcases ipSection_cases hp count with ⟨_, h1⟩ | ⟨ip, _, h1⟩ <;>
  rcases udpSection_cases hp count with ⟨_, h2⟩ | ⟨u, _, h2⟩ <;>
  rcases tcpSection_cases hp count with ⟨e3, h3⟩ | ⟨t, e3, h3⟩ <;>
  simp [h1, h2, h3, e3, layerListing]

/-- C2, refuted as stated: the summary of a decoded VXLAN frame that carries a TCP segment
has both the UDP section and the TCP section, the UDP section first. -/
theorem processPacket_both_sections :
    tunnelled.typed = true ∧
    Out.udpHead 0 ∈ (processPacket tunnelled 0).out ∧
    Out.tcpHead 0 ∈ (processPacket tunnelled 0).out ∧
    processPacket tunnelled 0 =
      ⟨[Out.ipHead 0, Out.ipAddrs [10, 0, 0, 1] [10, 0, 0, 2],
        Out.udpHead 0, Out.ports 49152 4789,
        Out.tcpHead 0, Out.ports 40000 80,
        Out.layer 0 0 LayerType.Ethernet, Out.layer 0 1 LayerType.IPv4,
        Out.layer 0 2 LayerType.UDP, Out.layer 0 3 LayerType.VXLAN,
        Out.layer 0 4 LayerType.Ethernet, Out.layer 0 5 LayerType.IPv4,
        Out.layer 0 6 LayerType.TCP,
        Out.size 0 0 []], none⟩ := by
  decide

/-- C2, amended: the summary of a decoded packet has a UDP section if and only if the packet
has a UDP layer and a TCP section if and only if it has a TCP layer, each with the ports of
the first such layer; so a packet with at most one of the two layers gets at most one of
the two sections, and a packet with both gets both, the UDP section immediately before the
TCP section. -/
theorem processPacket_transport_sections (p : Packet) (hp : p.typed = true) (count : Int) :
    (Out.udpHead count ∈ (processPacket p count).out ↔
      ∃ l ∈ p.layers, l.layerType = LayerType.UDP) ∧
    (Out.tcpHead count ∈ (processPacket p count).out ↔
      ∃ l ∈ p.layers, l.layerType = LayerType.TCP) ∧
    (∀ l, p.Layer LayerType.UDP = some l → ∃ u, l = Layer.udp u ∧
      [Out.udpHead count, Out.ports u.SrcPort u.DstPort] <:+: (processPacket p count).out) ∧
    (∀ l, p.Layer LayerType.TCP = some l → ∃ t, l = Layer.tcp t ∧
      [Out.tcpHead count, Out.ports t.SrcPort t.DstPort] <:+: (processPacket p count).out) ∧
    (¬ ((∃ l ∈ p.layers, l.layerType = LayerType.UDP) ∧
        (∃ l ∈ p.layers, l.layerType = LayerType.TCP)) →
      ¬ (Out.udpHead count ∈ (processPacket p count).out ∧
        Out.tcpHead count ∈ (processPacket p count).out)) ∧
    (∀ lu lt, p.Layer LayerType.UDP = some lu → p.Layer LayerType.TCP = some lt →
      ∃ u t, lu = Layer.udp u ∧ lt = Layer.tcp t ∧
        [Out.udpHead count, Out.ports u.SrcPort u.DstPort,
          Out.tcpHead count, Out.ports t.SrcPort t.DstPort] <:+:
            (processPacket p count).out) := by
  have hu := (mem_udpHead_iff hp count).trans (Layer_isSome_iff p LayerType.UDP)
  have ht := (mem_tcpHead_iff hp count).trans (Layer_isSome_iff p LayerType.TCP)
  refine ⟨hu, ht, ?_, ?_, ?_, ?_⟩
  · intro l hl
    rcases udpSection_cases hp count with ⟨e, _⟩ | ⟨u, e, h2⟩
    · rw [e] at hl; cases hl
    · rw [e] at hl; cases hl
      refine ⟨u, rfl, (ipSection p count).out, (tcpSection p count).out ++
        ((layerListing p count).out ++
          [Out.size count p.metadata.CaptureLength (p.data.take 50)]), ?_⟩
      rw [processPacket_typed hp, h2]
      simp
  · intro l hl
    rcases tcpSection_cases hp count with ⟨e, _⟩ | ⟨t, e, h3⟩
    · rw [e] at hl; cases hl
    · rw [e] at hl; cases hl
      refine ⟨t, rfl, (ipSection p count).out ++ (udpSection p count).out,
        (layerListing p count).out ++
          [Out.size count p.metadata.CaptureLength (p.data.take 50)], ?_⟩
      rw [processPacket_typed hp, h3]
      simp
  · rw [hu, ht]
    exact id
  · intro lu lt hlu hlt
    rcases udpSection_cases hp count with ⟨e, _⟩ | ⟨u, e, h2⟩
    · rw [e] at hlu; cases hlu
    · rcases tcpSection_cases hp count with ⟨e3, _⟩ | ⟨t, e3, h3⟩
      · rw [e3] at hlt; cases hlt
      · rw [e] at hlu; cases hlu
        rw [e3] at hlt; cases hlt
        refine ⟨u, t, rfl, rfl, (ipSection p count).out, (layerListing p count).out ++
          [Out.size count p.metadata.CaptureLength (p.data.take 50)], ?_⟩
        rw [processPacket_typed hp, h2, h3]
        simp

/-- C2 amended, at an Ethernet, IPv4, UDP packet: no TCP section. -/
theorem processPacket_transport_sections_witness :
    ¬ (Out.udpHead 7 ∈ (processPacket ⟨[Layer.other LayerType.Ethernet,
        Layer.ipv4 ⟨[10, 0, 0, 1], [10, 0, 0, 2]⟩, Layer.udp ⟨5353, 5353⟩], [], ⟨0, 0⟩⟩ 7).out ∧
      Out.tcpHead 7 ∈ (processPacket ⟨[Layer.other LayerType.Ethernet,
        Layer.ipv4 ⟨[10, 0, 0, 1], [10, 0, 0, 2]⟩, Layer.udp ⟨5353, 5353⟩], [], ⟨0, 0⟩⟩ 7).out) :=
  (processPacket_transport_sections ⟨[Layer.other LayerType.Ethernet,
      Layer.ipv4 ⟨[10, 0, 0, 1], [10, 0, 0, 2]⟩, Layer.udp ⟨5353, 5353⟩], [], ⟨0, 0⟩⟩
    (by decide) 7).2.2.2.2.1 (by decide)

/-- C5, refuted as stated: on a packet whose layer of type IPv4 is not a `*layers.IPv4` the
discarded type assertion leaves a nil pointer, and `processPacket` panics on `ip.SrcIP`
after printing the head of the IPv4 section. -/
theorem processPacket_panics_mistyped :
    processPacket mistyped 0 = ⟨[Out.ipHead 0], some Panic.nilDereference⟩ := by
  decide

/-- C3, refuted as stated: a packet without IPv4 layer whose layer of type UDP is not a
`*layers.UDP` gets no IPv4 section, and the rest of its summary is not produced either:
`processPacket` panics on `udp.SrcPort` after the head of the UDP section, before the layer
listing and the size line. -/
theorem processPacket_rest_not_produced :
    (¬ ∃ l ∈ mistypedUDP.layers, l.layerType = LayerType.IPv4) ∧
    processPacket mistypedUDP 0 = ⟨[Out.udpHead 0], some Panic.nilDereference⟩ ∧
    listing (processPacket mistypedUDP 0).out = [] ∧
    sizes (processPacket mistypedUDP 0).out = [] := by
  decide

/-- C7, refuted as stated: a packet of two layers whose layer of type TCP is not a
`*layers.TCP` gets a layer listing without any entry, since `processPacket` panics on
`tcp.SrcPort` before the listing. -/
theorem mistypedTCP_listing_empty :
    mistypedTCP.layers.length = 2 ∧
    listing (processPacket mistypedTCP 0).out = [] ∧
    (processPacket mistypedTCP 0).err = some Panic.nilDereference := by
  decide

/-! ## Lemmas on the read loop -/

theorem NewPacket_typed (w : World) (data : List Byte) (d : Decoder) :
    (NewPacket w data d).typed = true := by
  unfold Packet.typed NewPacket
  exact List.all_eq_true.mpr (w.decode_typed d data)

theorem PacketSource.packet_typed (w : World) (d : Decoder) (f : Frame) :
    (PacketSource.packet w d f).typed = true := by
  unfold Packet.typed PacketSource.packet NewPacket
  exact List.all_eq_true.mpr (w.decode_typed d f.B)

theorem readLoop_cons_typed (bits : Nat) {p : Packet} (hp : p.typed = true)
    (rest : List Packet) (c : Int) :
    readLoop bits (p :: rest) c =
      Event.call p c :: ((processPacket p c).out.map Event.print ++
        readLoop bits rest (increment bits c)) := by
  have h : (processPacket p c).err = none := by rw [processPacket_typed hp]
  simp [readLoop, h]

theorem calls_append (a b : List Event) : calls (a ++ b) = calls a ++ calls b := by
  induction a with
  | nil => rfl
  | cons e a ih => cases e <;> simp [calls, ih]

theorem calls_print (os : List Out) : calls (os.map Event.print) = [] := by
  induction os with
  | nil => rfl
  | cons o os ih => simpa [calls] using ih

theorem printed_append (a b : List Event) : printed (a ++ b) = printed a ++ printed b := by
  induction a with
  | nil => rfl
  | cons e a ih => cases e <;> simp [printed, ih]

theorem printed_print (os : List Out) : printed (os.map Event.print) = os := by
  induction os with
  | nil => rfl
  | cons o os ih => simpa [printed] using ih

/-- Below the largest `int`, `count++` adds one. -/
theorem increment_of_lt (bits k : Nat) (h : k + 1 < 2 ^ (bits - 1)) :
    increment bits (k : Int) = ((k + 1 : Nat) : Int) := by
  unfold increment
  have hne : ((k : Int) + 1 = 2 ^ (bits - 1)) = False := by
    apply eq_false
    intro heq
    have : ((k + 1 : Nat) : Int) = ((2 ^ (bits - 1) : Nat) : Int) := by
      push_cast
      exact heq
    have := Int.ofNat_inj.mp this
    omega
  simp [hne]

/-- The i-th call of a read loop over decoded packets: the i-th packet, with the first
counter incremented i times. -/
theorem calls_readLoop_getElem (bits : Nat) :
    ∀ (ps : List Packet) (c : Int), (∀ p ∈ ps, p.typed = true) → ∀ i : Nat,
      (calls (readLoop bits ps c))[i]? =
        (ps[i]?).map (fun p => (p, (increment bits)^[i] c))
  | [], _, _, _ => by simp [readLoop, calls]
  | p :: rest, c, hps, 0 => by
    have hp : p.typed = true := hps p (List.mem_cons_self _ _)
    rw [readLoop_cons_typed bits hp]
    simp [calls]
  | p :: rest, c, hps, i + 1 => by
    have hp : p.typed = true := hps p (List.mem_cons_self _ _)
    have hrest : ∀ q ∈ rest, q.typed = true := fun q hq => hps q (List.mem_cons_of_mem _ hq)
    rw [readLoop_cons_typed bits hp]
    simp only [calls, calls_append, calls_print, List.nil_append, List.getElem?_cons_succ]
    rw [calls_readLoop_getElem bits rest (increment bits c) hrest i]
    simp [Function.iterate_succ_apply]

/-- Below the largest `int`, counting up from 0 gives the number of increments. -/
theorem iterate_increment (bits : Nat) :
    ∀ k : Nat, k < 2 ^ (bits - 1) → (increment bits)^[k] 0 = (k : Int)
  | 0, _ => rfl
  | k + 1, h => by
    rw [Function.iterate_succ_apply', iterate_increment bits k (by omega)]
    exact increment_of_lt bits k h

/-- After 2^(bits-1) increments the counter has wrapped to the least `int`. -/
theorem iterate_increment_wrap (bits : Nat) :
    (increment bits)^[2 ^ (bits - 1)] 0 = -(2 ^ (bits - 1) : Int) := by
  obtain ⟨m, hm⟩ : ∃ m, 2 ^ (bits - 1) = m + 1 :=
    ⟨2 ^ (bits - 1) - 1, by have := Nat.one_le_two_pow (n := bits - 1); omega⟩
  have hcast : (m : Int) + 1 = 2 ^ (bits - 1) := by
    have := congrArg (fun n : Nat => (n : Int)) hm
    push_cast at this
    omega
  rw [hm, Function.iterate_succ_apply', iterate_increment bits m (by omega)]
  unfold increment
  rw [if_pos hcast]

/-- A read loop over decoded packets does not end in a panic. -/
theorem readLoop_no_panic (bits : Nat) :
    ∀ (ps : List Packet) (c : Int), (∀ p ∈ ps, p.typed = true) →
      ∀ pn, Event.panic pn ∉ readLoop bits ps c
  | [], _, _, _ => by simp [readLoop]
  | p :: rest, c, hps, pn => by
    have hp : p.typed = true := hps p (List.mem_cons_self _ _)
    have hrest : ∀ q ∈ rest, q.typed = true := fun q hq => hps q (List.mem_cons_of_mem _ hq)
    rw [readLoop_cons_typed bits hp]
    have ih := readLoop_no_panic bits rest (increment bits c) hrest pn
    simp [ih]

/-- The packets that the read loop of the chosen mode processes are decoded packets. -/
theorem packetOf_typed (fl : Flags) (w : World) (handle : Handle) :
    ∀ p ∈ w.frames.map (packetOf fl w handle), p.typed = true := by
  intro p hp
  obtain ⟨f, _, rfl⟩ := List.mem_map.mp hp
  unfold packetOf
  split
  · exact PacketSource.packet_typed w _ f
  · exact NewPacket_typed w _ _

/-- The read loop of `acquire`, after the event that opens the source. -/
theorem acquire_eq (fl : Flags) (w : World) (handle : Handle) :
    acquire fl w handle =
      (if fl.useGopacket then Event.newPacketSource handle.linkType else Event.listen) ::
        readLoop w.intBits (w.frames.map (packetOf fl w handle)) 0 := by
  unfold acquire packetOf
  cases fl.useGopacket <;> simp

theorem calls_acquire (fl : Flags) (w : World) (handle : Handle) :
    calls (acquire fl w handle) =
      calls (readLoop w.intBits (w.frames.map (packetOf fl w handle)) 0) := by
  rw [acquire_eq]
  cases fl.useGopacket <;> rfl

theorem readLoop_isLoop (bits : Nat) :
    ∀ (ps : List Packet) (c : Int), ∀ e ∈ readLoop bits ps c, e.isLoop = true
  | [], _, e, he => by simp [readLoop] at he
  | p :: rest, c, e, he => by
    unfold readLoop at he
    simp only [List.mem_cons, List.mem_append, List.mem_map] at he
    rcases he with rfl | ⟨o, _, rfl⟩ | he
    · rfl
    · rfl
    · cases herr : (processPacket p c).err with
      | none =>
        rw [herr] at he
        exact readLoop_isLoop bits rest _ e he
      | some pn =>
        rw [herr] at he
        simp only [List.mem_singleton] at he
        subst he
        rfl

theorem filter_isSource_readLoop (bits : Nat) (ps : List Packet) (c : Int) :
    (readLoop bits ps c).filter Event.isSource = [] := by
  apply List.filter_eq_nil_iff.mpr
  intro e he
  have := readLoop_isLoop bits ps c e he
  cases e <;> simp_all [Event.isLoop, Event.isSource]

/-- The packets of the calls of a read loop over decoded packets. -/
theorem calls_fst_readLoop (bits : Nat) :
    ∀ (ps : List Packet) (c : Int), (∀ p ∈ ps, p.typed = true) →
      (calls (readLoop bits ps c)).map Prod.fst = ps
  | [], _, _ => rfl
  | p :: rest, c, hps => by
    have hp : p.typed = true := hps p (List.mem_cons_self _ _)
    have hrest : ∀ q ∈ rest, q.typed = true := fun q hq => hps q (List.mem_cons_of_mem _ hq)
    rw [readLoop_cons_typed bits hp]
    simp only [calls, calls_append, calls_print, List.nil_append, List.map_cons]
    rw [calls_fst_readLoop bits rest _ hrest]

theorem sizes_layerLines (count : Int) (ls : List (Nat × Layer)) :
    sizes (ls.map (fun il => Out.layer count il.1 il.2.layerType)) = [] := by
  induction ls with
  | nil => rfl
  | cons il ls ih => simpa [sizes] using ih

/-- The size that `processPacket` reports is the capture length in the metadata. -/
theorem sizes_processPacket {p : Packet} (hp : p.typed = true) (count : Int) :
    sizes (processPacket p count).out = [p.metadata.CaptureLength] := by
  rw [processPacket_typed hp]
  simp only [sizes_append, layerListing, sizes_layerLines]
  rcases ipSection_cases hp count with ⟨_, h1⟩ | ⟨ip, _, h1⟩ <;>
  rcases udpSection_cases hp count with ⟨_, h2⟩ | ⟨u, _, h2⟩ <;>
  rcases tcpSection_cases hp count with ⟨_, h3⟩ | ⟨t, _, h3⟩ <;>
  simp [h1, h2, h3, sizes]

theorem sizes_readLoop (bits : Nat) :
    ∀ (ps : List Packet) (c : Int), (∀ p ∈ ps, p.typed = true) →
      sizes (printed (readLoop bits ps c)) = ps.map (fun p => p.metadata.CaptureLength)
  | [], _, _ => rfl
  | p :: rest, c, hps => by
    have hp : p.typed = true := hps p (List.mem_cons_self _ _)
    have hrest : ∀ q ∈ rest, q.typed = true := fun q hq => hps q (List.mem_cons_of_mem _ hq)
    rw [readLoop_cons_typed bits hp]
    simp only [printed, printed_append, printed_print, sizes_append, sizes_processPacket hp,
      List.map_cons, List.singleton_append]
    rw [sizes_readLoop bits rest _ hrest]

/-- The sizes a read loop reports: the capture lengths in the metadata of its packets. -/
theorem sizes_acquire (fl : Flags) (w : World) (handle : Handle) :
    sizes (printed (acquire fl w handle)) =
      w.frames.map (fun f => (packetOf fl w handle f).metadata.CaptureLength) := by
  have h := sizes_readLoop w.intBits (w.frames.map (packetOf fl w handle)) 0
    (packetOf_typed fl w handle)
  rw [acquire_eq]
  cases hg : fl.useGopacket <;> simp [printed, h, Function.comp_def]

/-! ## The claims on the read loop -/

/-- The i-th call of the read loop of either mode. -/
theorem calls_acquire_getElem (fl : Flags) (w : World) (handle : Handle) (i : Nat) :
    (calls (acquire fl w handle))[i]? =
      (w.frames[i]?).map (fun f => (packetOf fl w handle f, (increment w.intBits)^[i] 0)) := by
  rw [calls_acquire, calls_readLoop_getElem w.intBits _ 0 (packetOf_typed fl w handle) i,
    List.getElem?_map]
  cases w.frames[i]? <;> rfl

/-- The call number 2^(intBits-1) of the read loop gets the least `int` as its counter. -/
theorem calls_acquire_wrap (fl : Flags) (w : World) (handle : Handle) (f : Frame)
    (hf : w.frames[2 ^ (w.intBits - 1)]? = some f) :
    (calls (acquire fl w handle))[2 ^ (w.intBits - 1)]? =
      some (packetOf fl w handle f, -(2 ^ (w.intBits - 1) : Int)) := by
  rw [calls_acquire_getElem, hf, iterate_increment_wrap]
  rfl

/-- C4, amended: in either acquisition mode, for N frames delivered, `processPacket` is
called N times, once per frame in delivery order, and the counter of the i-th call (from 0)
is i for every i below 2^(w-1), w the width of `int`; so for N up to 2^(w-1) the counters
are 0..N-1. -/
theorem acquire_counters (fl : Flags) (w : World) (handle : Handle) :
    (calls (acquire fl w handle)).length = w.frames.length ∧
    (calls (acquire fl w handle)).map Prod.fst = w.frames.map (packetOf fl w handle) ∧
    (∀ i : Nat, i < 2 ^ (w.intBits - 1) →
      (calls (acquire fl w handle))[i]? =
        (w.frames[i]?).map (fun f => (packetOf fl w handle f, (i : Int)))) ∧
    (w.frames.length ≤ 2 ^ (w.intBits - 1) →
      ∀ i : Nat, (calls (acquire fl w handle))[i]? =
        (w.frames[i]?).map (fun f => (packetOf fl w handle f, (i : Int)))) := by
  have hfst : (calls (acquire fl w handle)).map Prod.fst = w.frames.map (packetOf fl w handle) := by
    rw [calls_acquire]
    exact calls_fst_readLoop w.intBits _ 0 (packetOf_typed fl w handle)
  have hlen : (calls (acquire fl w handle)).length = w.frames.length := by
    have := congrArg List.length hfst
    simpa using this
  have hlt : ∀ i : Nat, i < 2 ^ (w.intBits - 1) →
      (calls (acquire fl w handle))[i]? =
        (w.frames[i]?).map (fun f => (packetOf fl w handle f, (i : Int))) := by
    intro i hi
    rw [calls_acquire_getElem, iterate_increment w.intBits i hi]
  refine ⟨hlen, hfst, hlt, fun hN i => ?_⟩
  by_cases hi : i < 2 ^ (w.intBits - 1)
  · exact hlt i hi
  · have h1 : w.frames.length ≤ i := by omega
    have h2 : (calls (acquire fl w handle)).length ≤ i := by omega
    rw [List.getElem?_eq_none h1, List.getElem?_eq_none h2]
    rfl

/-- C4, refuted as stated: on a platform with an `int` of 32 bits, in a session that
delivers 2^31 + 1 frames, the counter passed to the call number 2^31 is -2^31. -/
theorem acquire_counter_wraps :
    world32.intBits = 32 ∧
    world32.frames.length = 2147483649 ∧
    ((calls (acquire rawFlags world32 ⟨1⟩))[2147483648]?).map Prod.snd =
      some (-2147483648) := by
  have hf : world32.frames[2 ^ (world32.intBits - 1)]? = some ⟨[1, 2, 3], ⟨3, 3⟩⟩ := by
    show (List.replicate 2147483649 (⟨[1, 2, 3], ⟨3, 3⟩⟩ : Frame))[2147483648]? = _
    rw [List.getElem?_replicate]
    exact if_pos (by norm_num)
  have h := calls_acquire_wrap rawFlags world32 ⟨1⟩ _ hf
  have hpow : (2 : Nat) ^ (world32.intBits - 1) = 2147483648 := by
    show (2 : Nat) ^ (32 - 1) = 2147483648
    norm_num
  have hneg : (-(2 ^ (world32.intBits - 1) : Int)) = -2147483648 := by
    show (-(2 ^ (32 - 1) : Int)) = -2147483648
    norm_num
  rw [hpow, hneg] at h
  refine ⟨rfl, List.length_replicate _ _, ?_⟩
  rw [h]
  rfl

/-- C5, amended: on a decoded packet, whatever layers it has or lacks and however short its
data, `processPacket` completes without a panic and ends with the size line; the read loop
of either acquisition mode never ends in a panic. -/
theorem processPacket_completes (p : Packet) (hp : p.typed = true) (count : Int)
    (fl : Flags) (w : World) (handle : Handle) :
    (processPacket p count).err = none ∧
    (∃ before, (processPacket p count).out =
      before ++ [Out.size count p.metadata.CaptureLength (p.data.take 50)]) ∧
    ∀ pn, Event.panic pn ∉ acquire fl w handle := by
  refine ⟨by rw [processPacket_typed hp], ?_, fun pn => ?_⟩
  · refine ⟨(ipSection p count).out ++ ((udpSection p count).out ++
      ((tcpSection p count).out ++ (layerListing p count).out)), ?_⟩
    rw [processPacket_typed hp]
    simp
  · rw [acquire_eq]
    have h := readLoop_no_panic w.intBits (w.frames.map (packetOf fl w handle)) 0
      (packetOf_typed fl w handle) pn
    cases fl.useGopacket <;> simp [h]

/-- C4 amended, at two frames in raw mode on a 64-bit platform: the second call has the
counter 1. -/
theorem acquire_counters_witness :
    (calls (acquire rawFlags sampleWorld ⟨1⟩))[1]? =
      (sampleWorld.frames[1]?).map (fun f => (packetOf rawFlags sampleWorld ⟨1⟩ f, (1 : Int))) :=
  (acquire_counters rawFlags sampleWorld ⟨1⟩).2.2.2 (by decide) 1

/-- C5 amended, at a packet without layers and without data. -/
theorem processPacket_completes_witness :
    (processPacket ⟨[], [], ⟨0, 0⟩⟩ 0).err = none :=
  (processPacket_completes ⟨[], [], ⟨0, 0⟩⟩ (by decide) 0 rawFlags sampleWorld ⟨1⟩).1

/-- C6, the code at the failing input: in raw mode the sizes reported for frames whose
recorded capture lengths are 60 and 3 are 0 and 0, since the packets built by `NewPacket`
carry no capture info; the mediated mode reports 60 and 3 for the same frames. -/
theorem raw_mode_reports_size_zero :
    sampleWorld.frames.map (fun f => f.Info.CaptureLength) = [60, 3] ∧
    sizes (printed (Run rawFlags sampleWorld).main) = [0, 0] ∧
    sizes (printed (Run mediatedFlags sampleWorld).main) = [60, 3] := by
  decide

/-- C10: the read loop opens exactly one source of frames. In raw mode it is `Listen`, every
packet processed is decoded from the bytes of a frame with Ethernet as first layer type, and
the link type of the handle plays no role; in mediated mode it is a packet source built with
the link type of the handle, from which every packet processed comes. -/
theorem acquire_mode (fl : Flags) (w : World) (handle : Handle) :
    (fl.useGopacket = false →
      (acquire fl w handle).filter Event.isSource = [Event.listen] ∧
      (calls (acquire fl w handle)).map Prod.fst =
        w.frames.map (fun f => NewPacket w f.B (Decoder.layerType LayerType.Ethernet)) ∧
      ∀ other : Handle, acquire fl w other = acquire fl w handle) ∧
    (fl.useGopacket = true →
      (acquire fl w handle).filter Event.isSource = [Event.newPacketSource handle.linkType] ∧
      (calls (acquire fl w handle)).map Prod.fst =
        w.frames.map (PacketSource.packet w (Decoder.linkType handle.linkType))) ∧
    ((acquire fl w handle).filter Event.isSource).length = 1 := by
  have hcalls := calls_fst_readLoop w.intBits (w.frames.map (packetOf fl w handle)) 0
    (packetOf_typed fl w handle)
  have hsrc := filter_isSource_readLoop w.intBits (w.frames.map (packetOf fl w handle)) 0
  refine ⟨fun hg => ⟨?_, ?_, fun other => ?_⟩, fun hg => ⟨?_, ?_⟩, ?_⟩
  · rw [acquire_eq]; simp [hg, Event.isSource, hsrc]
  · rw [calls_acquire, hcalls]; simp [packetOf, hg]
  · simp [acquire, hg]
  · rw [acquire_eq]; simp [hg, Event.isSource, hsrc]
  · rw [calls_acquire, hcalls]; simp [packetOf, hg]
  · rw [acquire_eq]; cases fl.useGopacket <;> simp [Event.isSource, hsrc]

/-- C10, at the raw mode of the example world. -/
theorem acquire_mode_witness :
    (acquire rawFlags sampleWorld ⟨1⟩).filter Event.isSource = [Event.listen] :=
  ((acquire_mode rawFlags sampleWorld ⟨1⟩).1 rfl).1

/-! ## The claims on the session -/

theorem opening_events (fl : Flags) :
    ∀ e ∈ opening fl, e.isAcquisition = false ∧ e.isSetFilter = false ∧ e ≠ Event.close ∧
      ∀ s, e ≠ Event.goWatcher s := by
  unfold opening
  cases fl.debug <;> simp [Event.isAcquisition, Event.isSetFilter]

theorem armWatcher_events (fl : Flags) :
    ∀ e ∈ armWatcher fl, e.isSetFilter = false ∧ e ≠ Event.close := by
  unfold armWatcher
  split <;> simp [Event.isSetFilter]

theorem acquire_events (fl : Flags) (w : World) (handle : Handle) :
    ∀ e ∈ acquire fl w handle, e.isSetFilter = false ∧ e ≠ Event.close ∧
      ∀ s, e ≠ Event.goWatcher s := by
  intro e he
  rw [acquire_eq] at he
  rcases List.mem_cons.mp he with rfl | he
  · cases fl.useGopacket <;> simp [Event.isSetFilter]
  · have := readLoop_isLoop _ _ _ e he
    cases e <;> simp_all [Event.isLoop, Event.isSetFilter]

/-- C8: when `OpenLive` fails the session ends with that failure, without attaching a filter,
entering a read loop or calling `processPacket`; when `SetBPFFilter` fails it ends with that
failure without entering a read loop or calling `processPacket`; after a successful open
the filter is attached once, after the events of the opening, none of which belongs to the
acquisition, and never again. -/
theorem Run_setup (fl : Flags) (w : World) :
    (∀ err, w.openLive fl.iface 1600 true 0 fl.useSyscalls = Except.error err →
      (Run fl w).main.getLast? = some (Event.fatal err) ∧
      (∀ e ∈ (Run fl w).main, e.isAcquisition = false ∧ e.isSetFilter = false) ∧
      (Run fl w).watcher = []) ∧
    (∀ handle err, w.openLive fl.iface 1600 true 0 fl.useSyscalls = Except.ok handle →
      w.setBPFFilter handle (filterOf fl.args) = some err →
      (Run fl w).main.getLast? =
        some (Event.fatal ("unexpected error setting filter: " ++ err)) ∧
      (∀ e ∈ (Run fl w).main, e.isAcquisition = false) ∧
      (Run fl w).watcher = []) ∧
    (∀ handle, w.openLive fl.iface 1600 true 0 fl.useSyscalls = Except.ok handle →
      ∃ after, (Run fl w).main =
          opening fl ++ Event.setBPFFilter (filterOf fl.args) :: after ∧
        ∀ e ∈ after, e.isSetFilter = false) ∧
    Event.openLive fl.iface 1600 true 0 fl.useSyscalls ∈ opening fl ∧
    (∀ e ∈ opening fl, e.isAcquisition = false ∧ e.isSetFilter = false) := by
  have hop := opening_events fl
  refine ⟨fun err herr => ?_, fun handle err hok herr => ?_, fun handle hok => ?_, ?_,
    fun e he => ⟨(hop e he).1, (hop e he).2.1⟩⟩
  · simp only [Run, herr]
    refine ⟨by simp, fun e he => ?_, trivial⟩
    rcases List.mem_append.mp he with h | h
    · exact ⟨(hop e h).1, (hop e h).2.1⟩
    · simp only [List.mem_singleton] at h
      subst h
      exact ⟨rfl, rfl⟩
  · simp only [Run, hok, herr]
    refine ⟨by simp, fun e he => ?_, trivial⟩
    rcases List.mem_append.mp he with h | h
    · exact (hop e h).1
    · simp only [List.mem_cons, List.mem_singleton, List.not_mem_nil, or_false] at h
      rcases h with rfl | rfl <;> rfl
  · simp only [Run, hok]
    cases hf : w.setBPFFilter handle (filterOf fl.args) with
    | some err =>
      refine ⟨[Event.fatal ("unexpected error setting filter: " ++ err)], by simp, ?_⟩
      intro e he
      simp only [List.mem_singleton] at he
      subst he
      rfl
    | none =>
      refine ⟨armWatcher fl ++ acquire fl w handle, by simp, ?_⟩
      intro e he
      rcases List.mem_append.mp he with h | h
      · exact (armWatcher_events fl e h).1
      · exact (acquire_events fl w handle e h).1
  · unfold opening
    simp

/-- C8, at a world where the interface cannot be opened and at one where the filter is
rejected. -/
theorem Run_setup_witness :
    (Run rawFlags closedWorld).main.getLast? = some (Event.fatal "permission denied") ∧
    (Run rawFlags unfilteredWorld).main.getLast? =
      some (Event.fatal ("unexpected error setting filter: " ++ "invalid filter")) :=
  ⟨((Run_setup rawFlags closedWorld).1 "permission denied" rfl).1,
    ((Run_setup rawFlags unfilteredWorld).2.1 ⟨1⟩ "invalid filter" rfl rfl).1⟩

/-- C9: the main thread of a session never calls `Close`; the watcher calls it at most once;
a watcher is started only with a timeout greater than 0, and in a session that reaches the
capture exactly with a timeout greater than 0; `Close` is called only in a session that
started a watcher, and with timeout 0 it is never called. -/
theorem Run_close (fl : Flags) (w : World) :
    Event.close ∉ (Run fl w).main ∧
    (Run fl w).watcher.count Event.close ≤ 1 ∧
    (Event.close ∈ (Run fl w).watcher → Event.goWatcher fl.timeout ∈ (Run fl w).main) ∧
    (∀ s, Event.goWatcher s ∈ (Run fl w).main → s = fl.timeout ∧ fl.timeout > 0) ∧
    (∀ handle, w.openLive fl.iface 1600 true 0 fl.useSyscalls = Except.ok handle →
      w.setBPFFilter handle (filterOf fl.args) = none →
      (Event.goWatcher fl.timeout ∈ (Run fl w).main ↔ fl.timeout > 0)) ∧
    (fl.timeout = 0 → Event.close ∉ (Run fl w).watcher ∧
      ∀ s, Event.goWatcher s ∉ (Run fl w).main) := by
  have hop := opening_events fl
  have harm : ∀ s, Event.goWatcher s ∈ armWatcher fl ↔ s = fl.timeout ∧ fl.timeout > 0 := by
    intro s
    unfold armWatcher
    split <;> simp_all
  have hwatch : Event.close ∈ watcherBody fl w → fl.timeout > 0 := by
    unfold watcherBody
    split <;> simp_all
  have hcount : (watcherBody fl w).count Event.close ≤ 1 := by
    unfold watcherBody
    split
    · cases w.watcherRuns <;> simp [List.count_cons]
    · simp
  cases hopen : w.openLive fl.iface 1600 true 0 fl.useSyscalls with
  | error err =>
    simp only [Run, hopen]
    refine ⟨?_, by simp, by simp, ?_, by simp, fun _ => ⟨by simp, ?_⟩⟩
    · intro h
      rcases List.mem_append.mp h with h | h
      · exact (hop _ h).2.2.1 rfl
      · simp at h
    · intro s h
      rcases List.mem_append.mp h with h | h
      · exact absurd rfl ((hop _ h).2.2.2 s)
      · simp at h
    · intro s h
      rcases List.mem_append.mp h with h | h
      · exact absurd rfl ((hop _ h).2.2.2 s)
      · simp at h
  | ok handle =>
    cases hf : w.setBPFFilter handle (filterOf fl.args) with
    | some err =>
      simp only [Run, hopen, hf]
      refine ⟨?_, by simp, by simp, ?_, by simp [hf], fun _ => ⟨by simp, ?_⟩⟩
      · intro h
        rcases List.mem_append.mp h with h | h
        · exact (hop _ h).2.2.1 rfl
        · simp at h
      · intro s h
        rcases List.mem_append.mp h with h | h
        · exact absurd rfl ((hop _ h).2.2.2 s)
        · simp at h
      · intro s h
        rcases List.mem_append.mp h with h | h
        · exact absurd rfl ((hop _ h).2.2.2 s)
        · simp at h
    | none =>
      simp only [Run, hopen, hf]
      have hmem : ∀ s, Event.goWatcher s ∈ opening fl ++ [Event.setBPFFilter (filterOf fl.args)]
          ++ armWatcher fl ++ acquire fl w handle ↔ s = fl.timeout ∧ fl.timeout > 0 := by
        intro s
        rw [← harm s]
        constructor
        · intro h
          simp only [List.mem_append, List.mem_singleton] at h
          rcases h with ((h | h) | h) | h
          · exact absurd rfl ((hop _ h).2.2.2 s)
          · cases h
          · exact h
          · exact absurd rfl ((acquire_events fl w handle _ h).2.2 s)
        · intro h
          simp [h]
      refine ⟨?_, hcount, fun h => (hmem _).mpr ⟨rfl, hwatch h⟩, fun s h => (hmem s).mp h,
        fun h _ _ => ?_, fun h0 => ⟨fun h => ?_, fun s h => ?_⟩⟩
      · intro h
        simp only [List.mem_append, List.mem_singleton] at h
        rcases h with ((h | h) | h) | h
        · exact (hop _ h).2.2.1 rfl
        · cases h
        · exact (armWatcher_events fl _ h).2 rfl
        · exact (acquire_events fl w handle _ h).2.1 rfl
      · cases h
        rw [hmem]
        simp
      · have := hwatch h
        omega
      · have := ((hmem s).mp h).2
        omega

/-- C9, at a session with a timeout of five seconds that reaches the capture. -/
theorem Run_close_witness :
    Event.goWatcher 5 ∈ (Run rawFlags sampleWorld).main ↔ (5 : Int) > 0 :=
  (Run_close rawFlags sampleWorld).2.2.2.2.1 ⟨1⟩ rfl rfl

end GoPcap
